import Mathlib

/-!
# Verification of the neural-link protocol core

Shallow embedding of the protocol/state-machine core of the repository:

* `architecture_prototype.py` — `UserSafetyMonitor` (safety state machine);
* `neural_security.py` — `NeuralSecurityLayer` (key ring, authenticated
  encryption, differential-privacy noise);
* `hive_protocol.py` — `HiveMessage` codec, receive loop, consensus tally;
* `performance_optimizer.py` — `PriorityQueue` (four bounded lanes).

Pure numeric values are embedded as rationals (`ℚ`, exact arithmetic in
place of Python floats).  Cryptographic primitives (SHA-256/HMAC, AES-GCM,
Fernet) are embedded symbolically: a ciphertext / tag / signature is a
constructor term recording exactly the inputs the primitive was applied
to, and verification compares terms for equality — the standard ideal
(collision-free) model of these primitives.  Everything else — control
flow, state updates, dictionary bookkeeping — is translated directly from
the Python source.
-/

namespace NeuralLink

/-! ## Safety monitor — `architecture_prototype.py`, class `UserSafetyMonitor`

`status` starts at `SAFE`; `_trigger_alert` assigns `WARNING`
unconditionally and then invokes the registered callbacks (the callbacks
do not write the monitor's own fields, so they are not part of the
monitor state transition); `emergency_stop` assigns `EMERGENCY_STOP` and
then calls `_trigger_alert`. -/

/-- `SafetyStatus` enum (`architecture_prototype.py` lines 66–71). -/
inductive SafetyStatus where
  | safe
  | warning
  | critical
  | emergencyStop
deriving DecidableEq, Repr

/-- The `thresholds` dict built in `UserSafetyMonitor.__init__`. -/
structure SafetyThresholds where
  maxStimulation : ℚ
  maxDurationMs : ℚ
  seizureThreshold : ℚ
  fatigueThreshold : ℚ
deriving DecidableEq, Repr

/-- `{"max_stimulation": 10.0, "max_duration_ms": 1000, "seizure_threshold": 50.0,
"fatigue_threshold": 0.3}`. -/
def defaultThresholds : SafetyThresholds :=
  { maxStimulation := 10
    maxDurationMs := 1000
    seizureThreshold := 50
    fatigueThreshold := 3/10 }

/-- The mutable state of a `UserSafetyMonitor`. -/
structure SafetyMonitor where
  status : SafetyStatus
  thresholds : SafetyThresholds
deriving DecidableEq, Repr

/-- `UserSafetyMonitor.__init__`: status `SAFE`, default thresholds. -/
def initMonitor : SafetyMonitor :=
  { status := .safe, thresholds := defaultThresholds }

/-- `np.mean(signal.channels ** 2)`: mean of the squared channel samples. -/
def signalPower (channels : List ℚ) : ℚ :=
  (channels.map fun c => c * c).sum / channels.length

/-- `UserSafetyMonitor._trigger_alert`: sets `self.status = SafetyStatus.WARNING`
(unconditionally) and then runs the alert callbacks. -/
def triggerAlert (m : SafetyMonitor) : SafetyMonitor :=
  { m with status := .warning }

/-- `UserSafetyMonitor.check_signal_safety`: returns the updated monitor plus
the `(is_safe, reason)` pair of the source. -/
def checkSignalSafety (m : SafetyMonitor) (channels : List ℚ) :
    SafetyMonitor × Bool × String :=
  let p := signalPower channels
  if p > m.thresholds.seizureThreshold then
    (triggerAlert m, false, "seizure_risk")
  else if p < m.thresholds.fatigueThreshold then
    (triggerAlert m, false, "fatigue")
  else
    (m, true, "safe")

/-- `UserSafetyMonitor.check_stimulation_safety` (no state change). -/
def checkStimulationSafety (m : SafetyMonitor) (pattern : List ℚ) :
    Bool × String :=
  let maxIntensity := (pattern.map fun x => |x|).foldl max 0
  let durationMs : ℚ := (pattern.length : ℚ) / 30
  if maxIntensity > m.thresholds.maxStimulation then
    (false, "intensity_exceeded")
  else if durationMs > m.thresholds.maxDurationMs then
    (false, "duration_exceeded")
  else
    (true, "safe")

/-- `UserSafetyMonitor.emergency_stop`: sets `status = EMERGENCY_STOP`, then
calls `_trigger_alert` (which overwrites `status` with `WARNING`). -/
def emergencyStop (m : SafetyMonitor) : SafetyMonitor :=
  triggerAlert { m with status := .emergencyStop }

end NeuralLink

namespace NeuralLink

/-- C1: the claim says that after `emergency_stop()` every subsequent
`check_signal` call reports unsafe, even on a trivially-safe vector.  The
source contradicts this: `check_signal_safety` never consults `self.status`,
so after `emergency_stop()` a vector of power 1 (well inside the fatigue/
seizure band 0.3 … 50) is still reported `(True, "safe")`. -/
theorem checkSignal_after_emergencyStop_reports_safe :
    (checkSignalSafety (emergencyStop initMonitor) [1]).2 = (true, "safe") := by
  norm_num [checkSignalSafety, signalPower, emergencyStop, triggerAlert,
    initMonitor, defaultThresholds]

/-- C7: the claim says the monitor status never moves backward, in particular
never from `EmergencyStop` to `Warning`.  The source contradicts this:
`_trigger_alert` assigns `WARNING` unconditionally, so `emergency_stop()`
itself (which sets `EMERGENCY_STOP` and then calls `_trigger_alert`) leaves
the status at `WARNING`, and `check_signal_safety` on an unsafe vector moves
a monitor already at `EMERGENCY_STOP` back to `WARNING`. -/
theorem emergencyStop_ends_in_warning :
    (emergencyStop initMonitor).status = SafetyStatus.warning ∧
    (checkSignalSafety { initMonitor with status := .emergencyStop }
      [10]).1.status = SafetyStatus.warning := by
  constructor
  · rfl
  · norm_num [checkSignalSafety, signalPower, triggerAlert, initMonitor,
      defaultThresholds]

end NeuralLink

namespace NeuralLink

/-! ## Crypto session — `neural_security.py`, class `NeuralSecurityLayer`

The key ring `session_keys` is a Python dict (insertion-ordered), embedded
as an association list.  Key material (`secrets.token_bytes(32)`) is
abstract, embedded as `Nat`.  AES-GCM and HMAC-SHA256 are embedded in the
ideal (symbolic) model: a ciphertext / tag / signature is a constructor
term recording the primitive's inputs, and verification is term equality.
The SHA-256 user-id hash in the metadata is an injective function of the
user id and is irrelevant to every claim; it is embedded as the identity. -/

/-- A value in the `features` sub-dict of a neural-data dict.  The source
branches on `int`/`float` (scalar noise added), `np.ndarray` (element-wise
noise), and passes anything else through; no claim involves array-valued
features, so the embedding keeps scalars (`num`) and the pass-through
branch (`other`). -/
inductive FeatVal where
  | num (x : ℚ)
  | other (s : String)
deriving DecidableEq, Repr

/-- The dict passed to `encrypt_neural_data`: the optional `'features'`
entry (the only one the function inspects) plus the remaining entries. -/
structure NeuralData where
  features : Option (List (String × FeatVal))
  rest : List (String × String)
deriving DecidableEq, Repr

/-- The `metadata` dict built inside `encrypt_neural_data`. -/
structure PackageMeta where
  timestamp : ℚ
  userIdHash : String
  dataType : String
deriving DecidableEq, Repr

/-- Symbolic AES-GCM ciphertext: `gcm key nonce aad plain` is the ciphertext
produced by encrypting `plain` under `key`/`nonce` with additional data
`aad`; `raw` is an arbitrary byte string (e.g. a tampered field). -/
inductive CtBytes where
  | gcm (key : Nat) (nonce : List Nat) (aad : PackageMeta) (plain : NeuralData)
  | raw (bs : List Nat)
deriving DecidableEq, Repr

/-- Symbolic AES-GCM authentication tag over the same inputs. -/
inductive TagBytes where
  | gcm (key : Nat) (nonce : List Nat) (aad : PackageMeta) (plain : NeuralData)
  | raw (bs : List Nat)
deriving DecidableEq, Repr

/-- The five fields of `encrypted_package` that `_sign_data` signs
(everything except `signature`; the source serializes them with
`json.dumps(..., sort_keys=True)`). -/
structure SignedContent where
  ciphertext : CtBytes
  nonce : List Nat
  tag : TagBytes
  metadata : PackageMeta
  keyId : String
deriving DecidableEq, Repr

/-- HMAC-SHA256 signature in the ideal model: records the signing key
(derived from `master_key` with the constant `b"signing"` as in
`_sign_data`) and the signed content. -/
inductive Signature where
  | hmac (master : Nat) (content : SignedContent)
deriving DecidableEq, Repr

/-- `_sign_data`: HMAC under the key derived from the master key. -/
def signData (master : Nat) (content : SignedContent) : Signature :=
  .hmac master content

/-- The `encrypted_package` dict returned by `encrypt_neural_data`. -/
structure EncryptedPackage where
  ciphertext : CtBytes
  nonce : List Nat
  tag : TagBytes
  metadata : PackageMeta
  keyId : String
  signature : Option Signature
deriving DecidableEq, Repr

/-- The package minus its `signature` entry (what `_verify_signature`
re-signs after `del package_copy['signature']`). -/
def packageContent (p : EncryptedPackage) : SignedContent :=
  ⟨p.ciphertext, p.nonce, p.tag, p.metadata, p.keyId⟩

/-- `_verify_signature`: false when `'signature' not in package`, otherwise
constant-time comparison of the provided and recomputed signatures. -/
def verifySignature (master : Nat) (p : EncryptedPackage) : Bool :=
  match p.signature with
  | none => false
  | some s => s = signData master (packageContent p)

/-- Python-dict lookup on an association list. -/
def dictGet {α : Type} (d : List (String × α)) (k : String) : Option α :=
  match d with
  | [] => none
  | (k', v) :: rest => if k' = k then some v else dictGet rest k

/-- Python-dict assignment: replace in place if the key exists, else append. -/
def dictSet {α : Type} (d : List (String × α)) (k : String) (v : α) :
    List (String × α) :=
  match d with
  | [] => [(k, v)]
  | (k', v') :: rest =>
    if k' = k then (k, v) :: rest else (k', v') :: dictSet rest k v

/-- Python `del d[k]` (first occurrence). -/
def dictRemove {α : Type} (d : List (String × α)) (k : String) :
    List (String × α) :=
  match d with
  | [] => []
  | (k', v') :: rest =>
    if k' = k then rest else (k', v') :: dictRemove rest k

/-- Python string comparison on the underlying code points: lexicographic,
with a proper initial segment ordered before its extensions. -/
def charsLtB : List Char → List Char → Bool
  | _, [] => false
  | [], _ :: _ => true
  | c :: cs, d :: ds =>
    if c.val.toNat < d.val.toNat then true
    else if d.val.toNat < c.val.toNat then false
    else charsLtB cs ds

/-- `a < b` on Python strings. -/
def strLtB (a b : String) : Bool := charsLtB a.data b.data

/-- Python `min(d.keys())`: the lexicographically smallest key (the first
one on ties, as `min` keeps the earliest minimum). -/
def minKey {α : Type} (d : List (String × α)) : String :=
  match d with
  | [] => ""
  | (k, _) :: rest => rest.foldl (fun acc p => if strLtB p.1 acc then p.1 else acc) k

/-- The key-management state of a `NeuralSecurityLayer`. -/
structure SecurityState where
  userId : String
  masterKey : Nat
  sessionKeys : List (String × Nat)
  currentKeyId : String
deriving DecidableEq, Repr

/-- `_rotate_session_keys`: store a fresh key under a fresh `key_id`, make it
current, and when the ring exceeds 3 entries delete
`min(self.session_keys.keys())` (the smallest `key_id`, *not* the
oldest-created key — the source stores no timestamp despite its comment).
The fresh key id and key bytes (`secrets.token_hex(16)`,
`secrets.token_bytes(32)`) are parameters. -/
def rotateSessionKeys (st : SecurityState) (keyId : String) (newKey : Nat) :
    SecurityState :=
  let keys := dictSet st.sessionKeys keyId newKey
  let keys := if keys.length > 3 then dictRemove keys (minKey keys) else keys
  { st with sessionKeys := keys, currentKeyId := keyId }

/-- `_add_differential_privacy`: adds a Laplacian noise draw to each scalar
numeric feature and passes every other value through.  The per-key noise
draw (`np.random.laplace(0, noise_scale / epsilon)`) is the parameter
`noise`. -/
def addDifferentialPrivacy (noise : String → ℚ)
    (features : List (String × FeatVal)) : List (String × FeatVal) :=
  features.map fun kv =>
    match kv with
    | (k, .num x) => (k, .num (x + noise k))
    | (k, v) => (k, v)

/-- AES-GCM decryption in the ideal model: succeeds exactly when the
ciphertext was produced under the same key, nonce and additional data and
the tag matches; `finalize()` raises (`none`) otherwise. -/
def gcmDecrypt (key : Nat) (nonce : List Nat) (aad : PackageMeta)
    (ct : CtBytes) (tag : TagBytes) : Option NeuralData :=
  match ct with
  | .raw _ => none
  | .gcm k n a d =>
    if k = key ∧ n = nonce ∧ a = aad ∧ tag = TagBytes.gcm k n a d then
      some d
    else
      none

/-- `encrypt_neural_data`.  The source first overwrites `data['features']`
with the noisy features (mutating the caller's dict), then serializes and
encrypts under the current session key and signs the package.  The fresh
nonce (`secrets.token_bytes(16)`) and the wall-clock timestamp are
parameters; the result is the package together with the caller's dict as
it stands after the in-place mutation.  `none` models the `raise` when the
current key id is absent from the ring. -/
def encryptNeuralData (st : SecurityState) (data : NeuralData)
    (noise : String → ℚ) (nonce : List Nat) (ts : ℚ) :
    Option (EncryptedPackage × NeuralData) :=
  let data' :=
    match data.features with
    | some f => { data with features := some (addDifferentialPrivacy noise f) }
    | none => data
  let metadata : PackageMeta :=
    { timestamp := ts, userIdHash := st.userId, dataType := "neural_signal" }
  match dictGet st.sessionKeys st.currentKeyId with
  | none => none
  | some key =>
    let ct := CtBytes.gcm key nonce metadata data'
    let tg := TagBytes.gcm key nonce metadata data'
    let content : SignedContent :=
      { ciphertext := ct, nonce := nonce, tag := tg, metadata := metadata
        keyId := st.currentKeyId }
    some ({ ciphertext := ct, nonce := nonce, tag := tg, metadata := metadata
            keyId := st.currentKeyId
            signature := some (signData st.masterKey content) }, data')

/-- `decrypt_neural_data`: verify the signature first, then resolve
`key_id` in the ring (`none` when absent — "Session key not found"), then
authenticate-and-decrypt; any failure returns `None` with no plaintext. -/
def decryptNeuralData (st : SecurityState) (p : EncryptedPackage) :
    Option NeuralData :=
  if verifySignature st.masterKey p then
    match dictGet st.sessionKeys p.keyId with
    | none => none
    | some key => gcmDecrypt key p.nonce p.metadata p.ciphertext p.tag
  else
    none

end NeuralLink

namespace NeuralLink

/-! ### Key-ring rotation (C2) and tamper rejection (C4), noise (C9) -/

/-- A fresh `NeuralSecurityLayer` key state before the first rotation. -/
def secInit : SecurityState :=
  { userId := "u", masterKey := 0, sessionKeys := [], currentKeyId := "" }

/-- Four successive rotations whose freshly drawn key ids happen to arrive
in the order "b", "a", "c", "d" (`secrets.token_hex(16)` draws are random,
so any order of ids is possible). -/
def secB : SecurityState := rotateSessionKeys secInit "b" 10

def secBA : SecurityState := rotateSessionKeys secB "a" 11

def secBAC : SecurityState := rotateSessionKeys secBA "c" 12

def secBACD : SecurityState := rotateSessionKeys secBAC "d" 13

/-- Neural-data dict with no `'features'` entry, used as a plain payload. -/
def dataPlain : NeuralData := { features := none, rest := [("pattern", "focus")] }

/-- C2: after a 4th rotation the ring indeed holds 3 keys, but the evicted
key is the one with the *smallest* `key_id` ("a", the second key created),
not the oldest ("b", still present): `min(self.session_keys.keys())` is
lexicographic order on random hex ids, not creation order.  A package
encrypted under the evicted key "a" then fails decryption with
key-not-found (`None`), as the claim states for the evicted key. -/
theorem keyRing_evicts_smallest_id_not_oldest :
    secBACD.sessionKeys.length = 3 ∧
    dictGet secBACD.sessionKeys "b" = some 10 ∧
    dictGet secBACD.sessionKeys "a" = none ∧
    (encryptNeuralData secBA dataPlain (fun _ => 0) [7] 0).map
      (fun pd => decryptNeuralData secBACD pd.1) = some none := by
  decide

/-- C4: for every package produced by `encrypt_neural_data`, replacing the
`ciphertext` field (e.g. flipping one byte of its hex string) or the `tag`
field with any different value makes `decrypt_neural_data` return `None`:
the HMAC signature covers both fields and `_verify_signature` is checked
first, so no plaintext — partial or otherwise — is ever produced. -/
theorem tampered_package_decrypts_to_none
    (st : SecurityState) (d : NeuralData) (noise : String → ℚ)
    (nonce : List Nat) (ts : ℚ) (pkg : EncryptedPackage) (d' : NeuralData)
    (henc : encryptNeuralData st d noise nonce ts = some (pkg, d')) :
    (∀ ct', ct' ≠ pkg.ciphertext →
      decryptNeuralData st { pkg with ciphertext := ct' } = none) ∧
    (∀ tg', tg' ≠ pkg.tag →
      decryptNeuralData st { pkg with tag := tg' } = none) := by
  unfold encryptNeuralData at henc
  cases hk : dictGet st.sessionKeys st.currentKeyId with
  | none => rw [hk] at henc; exact absurd henc (by simp)
  | some key =>
    rw [hk] at henc
    simp only [Option.some.injEq, Prod.mk.injEq] at henc
    obtain ⟨hpkg, _⟩ := henc
    subst hpkg
    constructor
    · intro ct' hne
      simp only [decryptNeuralData, verifySignature, signData, packageContent]
      simp only [Signature.hmac.injEq, SignedContent.mk.injEq]
      simp [hne.symm]
    · intro tg' hne
      simp only [decryptNeuralData, verifySignature, signData, packageContent]
      simp only [Signature.hmac.injEq, SignedContent.mk.injEq]
      simp [hne.symm]

end NeuralLink

namespace NeuralLink

/-- Looking a key up after `_add_differential_privacy` yields the original
scalar value plus that key's noise draw. -/
theorem dictGet_addDifferentialPrivacy (noise : String → ℚ)
    (f : List (String × FeatVal)) (k : String) (v : ℚ)
    (h : dictGet f k = some (.num v)) :
    dictGet (addDifferentialPrivacy noise f) k = some (.num (v + noise k)) := by
  induction f with
  | nil => simp [dictGet] at h
  | cons kv rest ih =>
    obtain ⟨k', v'⟩ := kv
    by_cases hk : k' = k
    · subst hk
      cases v' with
      | num x =>
        simp only [dictGet, if_true, eq_self_iff_true] at h
        simp only [Option.some.injEq, FeatVal.num.injEq] at h
        subst h
        simp [addDifferentialPrivacy, dictGet]
      | other s =>
        simp [dictGet] at h
    · cases v' with
      | num x =>
        simp only [dictGet, if_neg hk] at h
        simpa [addDifferentialPrivacy, dictGet, hk] using ih h
      | other s =>
        simp only [dictGet, if_neg hk] at h
        simpa [addDifferentialPrivacy, dictGet, hk] using ih h

/-- C9: `encrypt_neural_data` perturbs every scalar numeric feature with a
differential-privacy noise draw *before* encrypting, and it writes the
noisy features back into the caller's dict (`data['features'] = ...`).
Hence, for a nonzero draw at feature `k`, decrypting the package does not
return the original dict: the round-trip yields the mutated dict `d'`,
whose value at `k` is `v + noise k ≠ v`, and `d' ≠ d`. -/
theorem encrypt_decrypt_differs_by_noise
    (st : SecurityState) (d : NeuralData) (f : List (String × FeatVal))
    (k : String) (v : ℚ) (noise : String → ℚ) (nonce : List Nat) (ts : ℚ)
    (pkg : EncryptedPackage) (d' : NeuralData)
    (hf : d.features = some f)
    (hv : dictGet f k = some (.num v))
    (hnz : noise k ≠ 0)
    (henc : encryptNeuralData st d noise nonce ts = some (pkg, d')) :
    decryptNeuralData st pkg = some d' ∧
    d'.features = some (addDifferentialPrivacy noise f) ∧
    dictGet (addDifferentialPrivacy noise f) k = some (.num (v + noise k)) ∧
    v + noise k ≠ v ∧
    d' ≠ d := by
  unfold encryptNeuralData at henc
  rw [hf] at henc
  cases hk : dictGet st.sessionKeys st.currentKeyId with
  | none => rw [hk] at henc; exact absurd henc (by simp)
  | some key =>
    rw [hk] at henc
    simp only [Option.some.injEq, Prod.mk.injEq] at henc
    obtain ⟨hpkg, hd'⟩ := henc
    subst hpkg
    subst hd'
    have hnoisy := dictGet_addDifferentialPrivacy noise f k v hv
    have hne : v + noise k ≠ v := by
      intro h
      exact hnz (by linarith)
    refine ⟨?_, rfl, hnoisy, hne, ?_⟩
    · simp [decryptNeuralData, verifySignature, signData, packageContent,
        hk, gcmDecrypt]
    · intro heq
      have hfeat : some (addDifferentialPrivacy noise f) = some f := by
        rw [← hf]
        exact congrArg NeuralData.features heq
      have : dictGet (addDifferentialPrivacy noise f) k = dictGet f k := by
        rw [Option.some.inj hfeat]
      rw [hnoisy, hv] at this
      simp only [Option.some.injEq, FeatVal.num.injEq] at this
      exact hne this

end NeuralLink

namespace NeuralLink

/-- A concrete security state: one session key `5` under id "k". -/
def stW : SecurityState :=
  { userId := "u", masterKey := 0, sessionKeys := [("k", 5)], currentKeyId := "k" }

/-- A concrete neural-data dict with one scalar feature. -/
def dW : NeuralData :=
  { features := some [("alpha", FeatVal.num 1)], rest := [] }

/-- `dW` after the in-place differential-privacy mutation with noise draw 1. -/
def dWnoisy : NeuralData :=
  { features := some [("alpha", FeatVal.num (1 + 1))], rest := [] }

/-- The metadata of the concrete encryption below (timestamp 0). -/
def mdW : PackageMeta :=
  { timestamp := 0, userIdHash := "u", dataType := "neural_signal" }

/-- The package `encrypt_neural_data` produces from `dW` in state `stW`
with noise draw 1, nonce `[7]`, timestamp 0. -/
def pkgW : EncryptedPackage :=
  { ciphertext := CtBytes.gcm 5 [7] mdW dWnoisy
    nonce := [7]
    tag := TagBytes.gcm 5 [7] mdW dWnoisy
    metadata := mdW
    keyId := "k"
    signature := some (Signature.hmac 0
      ⟨CtBytes.gcm 5 [7] mdW dWnoisy, [7], TagBytes.gcm 5 [7] mdW dWnoisy,
        mdW, "k"⟩) }

/-- Witness for C4 at the concrete package `pkgW`. -/
theorem tampered_package_decrypts_to_none_witness :
    (CtBytes.raw [9] ≠ pkgW.ciphertext ∧
      decryptNeuralData stW { pkgW with ciphertext := CtBytes.raw [9] } = none) ∧
    (TagBytes.raw [9] ≠ pkgW.tag ∧
      decryptNeuralData stW { pkgW with tag := TagBytes.raw [9] } = none) :=
  ⟨⟨by decide,
    (tampered_package_decrypts_to_none stW dW (fun _ => 1) [7] 0 pkgW dWnoisy
      rfl).1 (CtBytes.raw [9]) (by decide)⟩,
   ⟨by decide,
    (tampered_package_decrypts_to_none stW dW (fun _ => 1) [7] 0 pkgW dWnoisy
      rfl).2 (TagBytes.raw [9]) (by decide)⟩⟩

/-- Witness for C9 at the concrete dict `dW` with noise draw 1. -/
theorem encrypt_decrypt_differs_by_noise_witness :
    decryptNeuralData stW pkgW = some dWnoisy ∧
    dWnoisy.features = some (addDifferentialPrivacy (fun _ => 1)
      [("alpha", FeatVal.num 1)]) ∧
    dictGet (addDifferentialPrivacy (fun _ => 1) [("alpha", FeatVal.num 1)])
      "alpha" = some (FeatVal.num (1 + 1)) ∧
    (1 : ℚ) + 1 ≠ 1 ∧
    dWnoisy ≠ dW :=
  encrypt_decrypt_differs_by_noise stW dW [("alpha", FeatVal.num 1)] "alpha" 1
    (fun _ => 1) [7] 0 pkgW dWnoisy rfl rfl (by norm_num) rfl

end NeuralLink

namespace NeuralLink

/-! ## Hive protocol — `hive_protocol.py`

`HiveMessage.to_bytes` serializes the seven fields as a JSON object (the
enum replaced by its `.value` string); `from_bytes` parses it back and
re-raises `ValueError` for an unknown type string.  The embedding keeps
the JSON object as a record (`WireMsg`) — JSON serialization of such a
record is injective, and the length-prefix framing delivers it intact.
Fernet is symbolic: a token records the key and the plaintext, and
decryption succeeds exactly under the same key. -/

/-- `MessageType` enum (`hive_protocol.py` lines 24–34). -/
inductive MessageType where
  | neuralData
  | command
  | feedback
  | sync
  | heartbeat
  | consensusRequest
  | consensusVote
  | memoryShare
  | emergency
deriving DecidableEq, Repr

/-- `.value` of each enum member. -/
def MessageType.value : MessageType → String
  | .neuralData => "neural_data"
  | .command => "command"
  | .feedback => "feedback"
  | .sync => "sync"
  | .heartbeat => "heartbeat"
  | .consensusRequest => "consensus_request"
  | .consensusVote => "consensus_vote"
  | .memoryShare => "memory_share"
  | .emergency => "emergency"

/-- `MessageType(s)`: enum lookup by value; `none` models the `ValueError`. -/
def parseMessageType (s : String) : Option MessageType :=
  if s = "neural_data" then some .neuralData
  else if s = "command" then some .command
  else if s = "feedback" then some .feedback
  else if s = "sync" then some .sync
  else if s = "heartbeat" then some .heartbeat
  else if s = "consensus_request" then some .consensusRequest
  else if s = "consensus_vote" then some .consensusVote
  else if s = "memory_share" then some .memoryShare
  else if s = "emergency" then some .emergency
  else none

/-- A JSON-serializable payload value (nested maps are not needed by any
claim and are represented through their serialized string form). -/
inductive PayloadVal where
  | num (x : ℚ)
  | str (s : String)
  | boolean (b : Bool)
deriving DecidableEq, Repr

/-- The `HiveMessage` dataclass. -/
structure HiveMessage where
  messageId : String
  timestamp : ℚ
  sourceId : String
  messageType : MessageType
  payload : List (String × PayloadVal)
  priority : Int
  encrypted : Bool
deriving DecidableEq, Repr

/-- The JSON object produced by `HiveMessage.to_bytes` (message type as its
value string). -/
structure WireMsg where
  messageId : String
  timestamp : ℚ
  sourceId : String
  messageType : String
  payload : List (String × PayloadVal)
  priority : Int
  encrypted : Bool
deriving DecidableEq, Repr

/-- `HiveMessage.to_bytes`. -/
def toBytes (m : HiveMessage) : WireMsg :=
  { messageId := m.messageId
    timestamp := m.timestamp
    sourceId := m.sourceId
    messageType := m.messageType.value
    payload := m.payload
    priority := m.priority
    encrypted := m.encrypted }

/-- `HiveMessage.from_bytes`: `json.loads`, convert the type string back to
the enum (`none` on `ValueError`), rebuild the dataclass. -/
def fromBytes (w : WireMsg) : Option HiveMessage :=
  (parseMessageType w.messageType).map fun t =>
    { messageId := w.messageId
      timestamp := w.timestamp
      sourceId := w.sourceId
      messageType := t
      payload := w.payload
      priority := w.priority
      encrypted := w.encrypted }

/-- Symbolic Fernet token: `cipher.encrypt` under `key`. -/
inductive FernetToken where
  | mk (key : Nat) (plain : WireMsg)
deriving DecidableEq, Repr

/-- `cipher.decrypt`: succeeds exactly under the encrypting key
(`InvalidToken` otherwise). -/
def fernetDecrypt (key : Nat) : FernetToken → Option WireMsg
  | .mk k w => if k = key then some w else none

/-- The frame body after the 4-byte length prefix: the 1-byte encryption
flag (`0x01` → `enc`, `0x00` → `plain`) plus the payload bytes. -/
inductive FrameBody where
  | enc (tok : FernetToken)
  | plain (w : WireMsg)
deriving DecidableEq, Repr

/-- The per-message body of `_send_messages`: serialize, then
`b'\x01' + cipher.encrypt(...)` when `message.encrypted`, else
`b'\x00' + ...`. -/
def encodeFrame (key : Nat) (m : HiveMessage) : FrameBody :=
  if m.encrypted then .enc (.mk key (toBytes m)) else .plain (toBytes m)

/-- The per-frame body of `_receive_messages`: decrypt when the first byte
is `1`, then `HiveMessage.from_bytes`. -/
def decodeFrame (key : Nat) : FrameBody → Option HiveMessage
  | .enc tok => (fernetDecrypt key tok).bind fromBytes
  | .plain w => fromBytes w

/-- C5: encode/decode round-trip.  For every message with `encrypted =
true`, sending it through `_send_messages`' serialization and receiving it
through `_receive_messages`' decryption-and-parse under the same Fernet
key yields the identical message. -/
theorem encode_decode_roundtrip (key : Nat) (m : HiveMessage)
    (henc : m.encrypted = true) :
    decodeFrame key (encodeFrame key m) = some m := by
  obtain ⟨mid, ts, src, mt, pl, pr, en⟩ := m
  replace henc : en = true := henc
  subst henc
  cases mt <;>
    simp [encodeFrame, decodeFrame, fernetDecrypt, fromBytes, toBytes,
      parseMessageType, MessageType.value]

/-- Witness for C5 at a concrete encrypted message. -/
theorem encode_decode_roundtrip_witness :
    (true = true) ∧
    decodeFrame 3
      (encodeFrame 3
        { messageId := "m1", timestamp := 5, sourceId := "n1"
          messageType := .neuralData, payload := [("confidence", .num 1)]
          priority := 1, encrypted := true }) =
      some
        { messageId := "m1", timestamp := 5, sourceId := "n1"
          messageType := .neuralData, payload := [("confidence", .num 1)]
          priority := 1, encrypted := true } :=
  ⟨rfl, encode_decode_roundtrip 3
    { messageId := "m1", timestamp := 5, sourceId := "n1"
      messageType := .neuralData, payload := [("confidence", .num 1)]
      priority := 1, encrypted := true } rfl⟩

end NeuralLink

namespace NeuralLink

/-! ### Consensus tally — `HiveProtocol._wait_for_consensus`

Each poll iteration counts the votes received so far (a dict
`voter_id → option`; `values()` iterates in insertion order) and returns
the first option whose share of the votes *cast so far* reaches
`consensus_threshold` (`count / total_votes >= self.consensus_threshold`,
with `self.consensus_threshold = 0.66`).  The float literal `0.66` is
embedded as the rational `33/50`; the comparisons decided by the claims
(`2/3` and `1` against `0.66`) are far from the float rounding error, so
the rational and float comparisons agree. -/

/-- Build `vote_counts` from `votes.values()` in iteration order. -/
def voteCounts (vs : List String) : List (String × Nat) :=
  vs.foldl
    (fun acc v =>
      match dictGet acc v with
      | some n => dictSet acc v (n + 1)
      | none => acc ++ [(v, 1)])
    []

/-- The `for option, count in vote_counts.items()` scan: first option whose
share reaches the threshold. -/
def findConsensus (counts : List (String × Nat)) (total : Nat) (threshold : ℚ) :
    Option String :=
  match counts with
  | [] => none
  | (opt, c) :: rest =>
    if (c : ℚ) / (total : ℚ) ≥ threshold then some opt
    else findConsensus rest total threshold

/-- One poll of `_wait_for_consensus` over the votes accumulated so far
(`votes` is the `voter_id → option` dict). -/
def consensusCheck (votes : List (String × String)) (threshold : ℚ) :
    Option String :=
  let total := votes.length
  if total > 0 then
    findConsensus (voteCounts (votes.map Prod.snd)) total threshold
  else
    none

/-- C3 counterexample: the claim says that with votes `{A:2, B:1}` out of 3
cast and threshold `0.66` no option wins.  The source disagrees: the check
is `count / total >= threshold` and `2/3 = 0.666… ≥ 0.66`, so `A` wins on
this poll (the claim's arithmetic note confused the literal `0.66` with
`2/3`; even with threshold exactly `2/3` the `>=` would still fire). -/
theorem consensus_two_of_three_wins :
    consensusCheck [("v1", "A"), ("v2", "A"), ("v3", "B")] (33/50) = some "A" := by
  norm_num [consensusCheck, voteCounts, findConsensus, dictGet, dictSet,
    List.foldl]

/-- C3 amended: with `{A:2, B:1}` out of 3 cast, `A` wins (share `2/3 ≥
0.66`); with `{A:3}` out of 3 cast, `A` wins. -/
theorem consensus_outcomes_at_threshold :
    consensusCheck [("v1", "A"), ("v2", "A"), ("v3", "B")] (33/50) = some "A" ∧
    consensusCheck [("v1", "A"), ("v2", "A"), ("v3", "A")] (33/50) = some "A" := by
  constructor <;>
    norm_num [consensusCheck, voteCounts, findConsensus, dictGet, dictSet,
      List.foldl]

/-! ### Receive loop — `HiveProtocol._receive_messages`

The loop runs `while self.is_connected`, reads a length-prefixed frame
(`readexactly`), decrypts/parses it, updates metrics and dispatches; an
`asyncio.IncompleteReadError` (connection closed mid-message) executes
`break` — and nothing else: no statement in the loop writes
`self.is_connected`.  The stream is embedded as the list of read results
the socket yields. -/

/-- The transport state the receive loop touches. -/
structure ProtoState where
  connected : Bool
  received : List HiveMessage
  messagesReceived : Nat
deriving DecidableEq, Repr

/-- One read from the stream: a complete length-prefixed frame, or an
incomplete read (connection closed mid-message). -/
inductive ReadEvent where
  | frame (b : FrameBody)
  | incompleteRead
deriving DecidableEq, Repr

/-- The loop body for one complete frame: decrypt/parse (a failure raises,
is caught by the generic handler, and the loop continues), then count and
queue the message. -/
def processFrame (key : Nat) (s : ProtoState) (b : FrameBody) : ProtoState :=
  match decodeFrame key b with
  | some m =>
    { s with received := s.received ++ [m]
             messagesReceived := s.messagesReceived + 1 }
  | none => s

/-- `_receive_messages` over a list of read results. -/
def receiveLoop (key : Nat) (s : ProtoState) : List ReadEvent → ProtoState
  | [] => s
  | e :: rest =>
    if s.connected then
      match e with
      | .incompleteRead => s
      | .frame b => receiveLoop key (processFrame key s b) rest
    else s

/-- A freshly connected transport. -/
def protoStart : ProtoState :=
  { connected := true, received := [], messagesReceived := 0 }

/-- C8 counterexample: the claim says an incomplete frame read marks the
transport disconnected.  On the source, the `IncompleteReadError` handler
only `break`s: after the loop exits, `is_connected` is still `true`. -/
theorem receiveLoop_incomplete_leaves_connected :
    (receiveLoop 0 protoStart [ReadEvent.incompleteRead]).connected = true := by
  rfl

/-- C8 amended: an incomplete frame read terminates the receive loop (all
later reads are ignored), but the loop never changes `is_connected` — the
transport is *not* marked disconnected (only an explicit `disconnect()`
call clears the flag). -/
theorem receiveLoop_stops_at_incomplete
    (key : Nat) (s : ProtoState) (pre rest : List ReadEvent)
    (hpre : ∀ e ∈ pre, e ≠ ReadEvent.incompleteRead) :
    receiveLoop key s (pre ++ ReadEvent.incompleteRead :: rest) =
      receiveLoop key s pre ∧
    (receiveLoop key s pre).connected = s.connected := by
  induction pre generalizing s with
  | nil =>
    refine ⟨?_, rfl⟩
    simp only [List.nil_append, receiveLoop]
    by_cases h : s.connected <;> simp [h]
  | cons e pre ih =>
    have he : e ≠ ReadEvent.incompleteRead := hpre e (by simp)
    have hpre' : ∀ x ∈ pre, x ≠ ReadEvent.incompleteRead :=
      fun x hx => hpre x (by simp [hx])
    cases e with
    | incompleteRead => exact absurd rfl he
    | frame b =>
      by_cases h : s.connected
      · have := ih (processFrame key s b) hpre'
        constructor
        · simpa [receiveLoop, h] using this.1
        · have hconn : (processFrame key s b).connected = s.connected := by
            unfold processFrame
            cases decodeFrame key b <;> rfl
          simpa [receiveLoop, h, hconn] using this.2
      · simp [receiveLoop, h]

/-- Witness for C8's amended statement: one good frame, then the connection
closes mid-message; the loop stops and the flag is still `true`. -/
theorem receiveLoop_stops_at_incomplete_witness :
    receiveLoop 0 protoStart
        ([ReadEvent.frame (FrameBody.plain (toBytes
          { messageId := "m1", timestamp := 5, sourceId := "n1"
            messageType := .sync, payload := [], priority := 0
            encrypted := false }))] ++
          ReadEvent.incompleteRead :: [ReadEvent.incompleteRead]) =
      receiveLoop 0 protoStart
        [ReadEvent.frame (FrameBody.plain (toBytes
          { messageId := "m1", timestamp := 5, sourceId := "n1"
            messageType := .sync, payload := [], priority := 0
            encrypted := false }))] ∧
    (receiveLoop 0 protoStart
        [ReadEvent.frame (FrameBody.plain (toBytes
          { messageId := "m1", timestamp := 5, sourceId := "n1"
            messageType := .sync, payload := [], priority := 0
            encrypted := false }))]).connected = protoStart.connected :=
  receiveLoop_stops_at_incomplete 0 protoStart _ _ (by simp)

end NeuralLink

namespace NeuralLink

/-! ## Priority transport queue — `performance_optimizer.py`, class `PriorityQueue`

Four lanes backed by `deque(maxlen=…)`: `critical` holds `max_size // 4`,
`high` `max_size // 2`, `normal` and `low` `max_size` entries (the Python
default is `max_size = 1000`); appending to a full `deque` silently drops
its oldest entry.  `enqueue` appends to the lane named by the `priority`
string and increments `packet_count` whenever the string names a lane —
even when the append dropped an entry; `dequeue` pops the first nonempty
lane in the order critical, high, normal, low and decrements
`packet_count`; `size()` returns `packet_count`. -/

/-- What a `deque(maxlen := m)` holds after an append: the last `m`
elements. -/
def takeLast {α : Type} (m : Nat) (xs : List α) : List α :=
  (xs.reverse.take m).reverse

/-- The `PriorityQueue` state. -/
structure PQ (α : Type) where
  maxSize : Nat
  critical : List α
  high : List α
  normal : List α
  low : List α
  packetCount : Nat
deriving DecidableEq, Repr

/-- `PriorityQueue(max_size)`. -/
def PQ.empty (α : Type) (maxSize : Nat) : PQ α :=
  { maxSize := maxSize, critical := [], high := [], normal := [], low := []
    packetCount := 0 }

/-- `PriorityQueue.enqueue(packet, priority)`. -/
def enqueue {α : Type} (q : PQ α) (packet : α) (priority : String) : PQ α :=
  if priority = "critical" then
    { q with critical := takeLast (q.maxSize / 4) (q.critical ++ [packet])
             packetCount := q.packetCount + 1 }
  else if priority = "high" then
    { q with high := takeLast (q.maxSize / 2) (q.high ++ [packet])
             packetCount := q.packetCount + 1 }
  else if priority = "normal" then
    { q with normal := takeLast q.maxSize (q.normal ++ [packet])
             packetCount := q.packetCount + 1 }
  else if priority = "low" then
    { q with low := takeLast q.maxSize (q.low ++ [packet])
             packetCount := q.packetCount + 1 }
  else
    q

/-- `PriorityQueue.dequeue()`: first nonempty lane in priority order. -/
def dequeue {α : Type} (q : PQ α) : Option (α × PQ α) :=
  match q.critical with
  | p :: r => some (p, { q with critical := r, packetCount := q.packetCount - 1 })
  | [] =>
    match q.high with
    | p :: r => some (p, { q with high := r, packetCount := q.packetCount - 1 })
    | [] =>
      match q.normal with
      | p :: r => some (p, { q with normal := r, packetCount := q.packetCount - 1 })
      | [] =>
        match q.low with
        | p :: r => some (p, { q with low := r, packetCount := q.packetCount - 1 })
        | [] => none

/-- The number of packets actually held across the four lanes. -/
def storedCount {α : Type} (q : PQ α) : Nat :=
  q.critical.length + q.high.length + q.normal.length + q.low.length

/-- Repeated `dequeue()` (fuel-bounded; `storedCount` fuel drains fully). -/
def drainAll {α : Type} : Nat → PQ α → List α
  | 0, _ => []
  | fuel + 1, q =>
    match dequeue q with
    | none => []
    | some (p, q') => p :: drainAll fuel q'

/-- The packets enqueued to lane `pr`, in enqueue order. -/
def selLane {α : Type} (pr : String) (es : List (α × String)) : List α :=
  es.filterMap fun e => if e.2 = pr then some e.1 else none

/-- The queue after a sequence of enqueues starting from empty. -/
def buildQueue {α : Type} (maxSize : Nat) (es : List (α × String)) : PQ α :=
  es.foldl (fun q e => enqueue q e.1 e.2) (PQ.empty α maxSize)

end NeuralLink

namespace NeuralLink

/-- Appending one element to a full-or-not `deque` commutes with keeping
the last `m` elements. -/
theorem takeLast_append_one {α : Type} (m : Nat) (xs : List α) (p : α) :
    takeLast m (takeLast m xs ++ [p]) = takeLast m (xs ++ [p]) := by
  unfold takeLast
  cases m with
  | zero => simp
  | succ k => simp [List.take_take]

/-- Each lane of the queue built by a sequence of enqueues holds the last
`capacity` packets sent to that lane, in enqueue order. -/
theorem buildQueue_lanes {α : Type} (maxSize : Nat) (es : List (α × String))
    (q : PQ α) (Xc Xh Xn Xl : List α)
    (hm : q.maxSize = maxSize)
    (hc : q.critical = takeLast (maxSize / 4) Xc)
    (hh : q.high = takeLast (maxSize / 2) Xh)
    (hn : q.normal = takeLast maxSize Xn)
    (hl : q.low = takeLast maxSize Xl) :
    (es.foldl (fun q e => enqueue q e.1 e.2) q).maxSize = maxSize ∧
    (es.foldl (fun q e => enqueue q e.1 e.2) q).critical =
      takeLast (maxSize / 4) (Xc ++ selLane "critical" es) ∧
    (es.foldl (fun q e => enqueue q e.1 e.2) q).high =
      takeLast (maxSize / 2) (Xh ++ selLane "high" es) ∧
    (es.foldl (fun q e => enqueue q e.1 e.2) q).normal =
      takeLast maxSize (Xn ++ selLane "normal" es) ∧
    (es.foldl (fun q e => enqueue q e.1 e.2) q).low =
      takeLast maxSize (Xl ++ selLane "low" es) := by
  induction es generalizing q Xc Xh Xn Xl with
  | nil =>
    simpa [selLane] using ⟨hm, hc, hh, hn, hl⟩
  | cons e es ih =>
    obtain ⟨p, pr⟩ := e
    simp only [List.foldl_cons]
    by_cases h1 : pr = "critical"
    · subst h1
      have := ih (enqueue q p "critical") (Xc ++ [p]) Xh Xn Xl
        (by simp [enqueue, hm])
        (by simp [enqueue, hm, hc, takeLast_append_one])
        (by simp [enqueue, hh])
        (by simp [enqueue, hn])
        (by simp [enqueue, hl])
      simpa [selLane, List.append_assoc] using this
    · by_cases h2 : pr = "high"
      · subst h2
        have := ih (enqueue q p "high") Xc (Xh ++ [p]) Xn Xl
          (by simp [enqueue, hm])
          (by simp [enqueue, hc])
          (by simp [enqueue, hm, hh, takeLast_append_one])
          (by simp [enqueue, hn])
          (by simp [enqueue, hl])
        simpa [selLane, List.append_assoc] using this
      · by_cases h3 : pr = "normal"
        · subst h3
          have := ih (enqueue q p "normal") Xc Xh (Xn ++ [p]) Xl
            (by simp [enqueue, hm])
            (by simp [enqueue, hc])
            (by simp [enqueue, hh])
            (by simp [enqueue, hm, hn, takeLast_append_one])
            (by simp [enqueue, hl])
          simpa [selLane, List.append_assoc] using this
        · by_cases h4 : pr = "low"
          · subst h4
            have := ih (enqueue q p "low") Xc Xh Xn (Xl ++ [p])
              (by simp [enqueue, hm])
              (by simp [enqueue, hc])
              (by simp [enqueue, hh])
              (by simp [enqueue, hn])
              (by simp [enqueue, hm, hl, takeLast_append_one])
            simpa [selLane, List.append_assoc] using this
          · have hq : enqueue q p pr = q := by
              simp [enqueue, h1, h2, h3, h4]
            rw [hq]
            have := ih q Xc Xh Xn Xl hm hc hh hn hl
            simpa [selLane, h1, h2, h3, h4] using this

/-- With enough fuel, repeated `dequeue()` returns the four lanes
concatenated in strict priority order. -/
theorem drainAll_concat {α : Type} (fuel : Nat) (q : PQ α)
    (hfuel : storedCount q ≤ fuel) :
    drainAll fuel q = q.critical ++ q.high ++ q.normal ++ q.low := by
  induction fuel generalizing q with
  | zero =>
    obtain ⟨ms, c, hi, n, lo, cnt⟩ := q
    simp only [storedCount, Nat.le_zero] at hfuel
    have hc : c = [] := by
      cases c with
      | nil => rfl
      | cons a t => simp at hfuel
    have hhi : hi = [] := by
      cases hi with
      | nil => rfl
      | cons a t => simp at hfuel
    have hn : n = [] := by
      cases n with
      | nil => rfl
      | cons a t => simp at hfuel
    have hlo : lo = [] := by
      cases lo with
      | nil => rfl
      | cons a t => simp at hfuel
    subst hc hhi hn hlo
    simp [drainAll]
  | succ fuel ih =>
    obtain ⟨ms, c, hi, n, lo, cnt⟩ := q
    cases c with
    | cons p r =>
      simp only [drainAll, dequeue]
      rw [ih]
      · simp
      · simp only [storedCount] at hfuel ⊢
        simp at hfuel ⊢
        omega
    | nil =>
      cases hi with
      | cons p r =>
        simp only [drainAll, dequeue]
        rw [ih]
        · simp
        · simp only [storedCount] at hfuel ⊢
          simp at hfuel ⊢
          omega
      | nil =>
        cases n with
        | cons p r =>
          simp only [drainAll, dequeue]
          rw [ih]
          · simp
          · simp only [storedCount] at hfuel ⊢
            simp at hfuel ⊢
            omega
        | nil =>
          cases lo with
          | cons p r =>
            simp only [drainAll, dequeue]
            rw [ih]
            · simp
            · simp only [storedCount] at hfuel ⊢
              simp at hfuel ⊢
              omega
          | nil =>
            simp [drainAll, dequeue]

/-- C6: draining the queue built from any sequence of enqueues yields the
critical-lane packets first, then high, then normal, then low — and within
each lane exactly the lane's packets (the last `capacity` of them under
the bounded-deque drop policy) in FIFO enqueue order. -/
theorem drain_priority_order {α : Type} (maxSize : Nat) (es : List (α × String)) :
    drainAll (storedCount (buildQueue maxSize es)) (buildQueue maxSize es) =
      takeLast (maxSize / 4) (selLane "critical" es) ++
      takeLast (maxSize / 2) (selLane "high" es) ++
      takeLast maxSize (selLane "normal" es) ++
      takeLast maxSize (selLane "low" es) := by
  have hb := buildQueue_lanes maxSize es (PQ.empty α maxSize) [] [] [] []
    rfl (by simp [PQ.empty, takeLast]) (by simp [PQ.empty, takeLast])
    (by simp [PQ.empty, takeLast]) (by simp [PQ.empty, takeLast])
  obtain ⟨_, hc, hh, hn, hl⟩ := hb
  rw [drainAll_concat _ _ (le_refl _)]
  unfold buildQueue
  rw [hc, hh, hn, hl]
  simp

end NeuralLink

namespace NeuralLink

/-- One call against the queue: `enqueue(packet, priority)` or `dequeue()`. -/
inductive QOp (α : Type) where
  | enq (packet : α) (priority : String)
  | deq
deriving DecidableEq, Repr

/-- Run bookkeeping: the queue plus the number of accepted enqueue calls
(the priority string named a lane), successful dequeues, and packets
dropped by a full lane. -/
structure RunStats (α : Type) where
  q : PQ α
  accepted : Nat
  dequeued : Nat
  drops : Nat
deriving DecidableEq, Repr

/-- `if priority in self.queues`. -/
def laneNamed (pr : String) : Bool :=
  pr = "critical" ∨ pr = "high" ∨ pr = "normal" ∨ pr = "low"

/-- Execute one operation, tracking the bookkeeping. -/
def stepOp {α : Type} (r : RunStats α) : QOp α → RunStats α
  | .enq p pr =>
    let q' := enqueue r.q p pr
    if laneNamed pr then
      { q := q', accepted := r.accepted + 1, dequeued := r.dequeued
        drops := r.drops + (storedCount r.q + 1 - storedCount q') }
    else
      { r with q := q' }
  | .deq =>
    match dequeue r.q with
    | some pq => { r with q := pq.2, dequeued := r.dequeued + 1 }
    | none => r

/-- A run of operations from the empty queue. -/
def runOps {α : Type} (maxSize : Nat) (ops : List (QOp α)) : RunStats α :=
  ops.foldl stepOp
    { q := PQ.empty α maxSize, accepted := 0, dequeued := 0, drops := 0 }

/-- `deque(maxlen=m)` holds `min m _` elements after an append. -/
theorem length_takeLast {α : Type} (m : Nat) (xs : List α) :
    (takeLast m xs).length = min m xs.length := by
  simp [takeLast]

/-- An enqueue with a priority string naming no lane is a no-op. -/
theorem enqueue_invalid {α : Type} (q : PQ α) (p : α) (pr : String)
    (h : laneNamed pr = false) : enqueue q p pr = q := by
  simp only [laneNamed, decide_eq_false_iff_not] at h
  push_neg at h
  obtain ⟨h1, h2, h3, h4⟩ := h
  simp [enqueue, h1, h2, h3, h4]

/-- An accepted enqueue increments `packet_count` unconditionally. -/
theorem enqueue_valid_count {α : Type} (q : PQ α) (p : α) (pr : String)
    (h : laneNamed pr = true) :
    (enqueue q p pr).packetCount = q.packetCount + 1 := by
  simp only [laneNamed, decide_eq_true_eq] at h
  rcases h with h | h | h | h <;> subst h <;> simp [enqueue]

/-- An enqueue stores at most one more packet than before (it stores fewer
when a full lane drops its oldest entry). -/
theorem storedCount_enqueue_le {α : Type} (q : PQ α) (p : α) (pr : String) :
    storedCount (enqueue q p pr) ≤ storedCount q + 1 := by
  by_cases h1 : pr = "critical"
  · subst h1
    simp [enqueue, storedCount, length_takeLast]
    omega
  · by_cases h2 : pr = "high"
    · subst h2
      simp [enqueue, storedCount, length_takeLast, h1]
      omega
    · by_cases h3 : pr = "normal"
      · subst h3
        simp [enqueue, storedCount, length_takeLast, h1, h2]
        omega
      · by_cases h4 : pr = "low"
        · subst h4
          simp [enqueue, storedCount, length_takeLast, h1, h2, h3]
          omega
        · simp [enqueue, h1, h2, h3, h4]

/-- A successful dequeue removes exactly one stored packet and decrements
`packet_count`. -/
theorem dequeue_some_spec {α : Type} (q : PQ α) (p : α) (q' : PQ α)
    (h : dequeue q = some (p, q')) :
    q'.packetCount = q.packetCount - 1 ∧ storedCount q' + 1 = storedCount q := by
  obtain ⟨ms, c, hi, n, lo, cnt⟩ := q
  cases c with
  | cons a t =>
    simp only [dequeue, Option.some.injEq, Prod.mk.injEq] at h
    obtain ⟨-, hq⟩ := h
    subst hq
    simp [storedCount]
    omega
  | nil =>
    cases hi with
    | cons a t =>
      simp only [dequeue, Option.some.injEq, Prod.mk.injEq] at h
      obtain ⟨-, hq⟩ := h
      subst hq
      simp [storedCount]
      omega
    | nil =>
      cases n with
      | cons a t =>
        simp only [dequeue, Option.some.injEq, Prod.mk.injEq] at h
        obtain ⟨-, hq⟩ := h
        subst hq
        simp [storedCount]
        omega
      | nil =>
        cases lo with
        | cons a t =>
          simp only [dequeue, Option.some.injEq, Prod.mk.injEq] at h
          obtain ⟨-, hq⟩ := h
          subst hq
          simp [storedCount]
        | nil => simp [dequeue] at h

/-- The run invariant: `packet_count` equals accepted enqueues minus
successful dequeues, and exceeds the stored packets by the number of
dropped entries. -/
theorem runOps_invariant_aux {α : Type} (ops : List (QOp α)) (r : RunStats α)
    (h1 : r.q.packetCount + r.dequeued = r.accepted)
    (h2 : r.q.packetCount = storedCount r.q + r.drops) :
    ((ops.foldl stepOp r).q.packetCount + (ops.foldl stepOp r).dequeued =
      (ops.foldl stepOp r).accepted) ∧
    ((ops.foldl stepOp r).q.packetCount =
      storedCount (ops.foldl stepOp r).q + (ops.foldl stepOp r).drops) := by
  induction ops generalizing r with
  | nil => exact ⟨h1, h2⟩
  | cons op ops ih =>
    simp only [List.foldl_cons]
    apply ih
    · cases op with
      | enq p pr =>
        by_cases hl : laneNamed pr
        · have hcount := enqueue_valid_count r.q p pr hl
          simp only [stepOp, hl, if_true]
          omega
        · simp only [stepOp, hl, if_false, Bool.false_eq_true]
          simp only [enqueue_invalid r.q p pr (by simpa using hl)]
          exact h1
      | deq =>
        cases hd : dequeue r.q with
        | none => simpa [stepOp, hd] using h1
        | some pq =>
          obtain ⟨p, q'⟩ := pq
          have hspec := dequeue_some_spec r.q p q' hd
          simp only [stepOp, hd]
          omega
    · cases op with
      | enq p pr =>
        by_cases hl : laneNamed pr
        · have hcount := enqueue_valid_count r.q p pr hl
          have hst := storedCount_enqueue_le r.q p pr
          simp only [stepOp, hl, if_true]
          omega
        · simp only [stepOp, hl, if_false, Bool.false_eq_true]
          simp only [enqueue_invalid r.q p pr (by simpa using hl)]
          exact h2
      | deq =>
        cases hd : dequeue r.q with
        | none => simpa [stepOp, hd] using h2
        | some pq =>
          obtain ⟨p, q'⟩ := pq
          have hspec := dequeue_some_spec r.q p q' hd
          simp only [stepOp, hd]
          omega

/-- C10: after any run of operations from the empty queue, `size()`
(`packet_count`) equals accepted enqueues minus successful dequeues; once
any full lane has dropped an entry during an enqueue, `size()` strictly
exceeds the number of packets actually held in the four lanes. -/
theorem size_tracks_accepted_not_stored {α : Type} (maxSize : Nat)
    (ops : List (QOp α)) :
    ((runOps maxSize ops).q.packetCount + (runOps maxSize ops).dequeued =
      (runOps maxSize ops).accepted) ∧
    (0 < (runOps maxSize ops).drops →
      storedCount (runOps maxSize ops).q < (runOps maxSize ops).q.packetCount) := by
  have h := runOps_invariant_aux ops
    { q := PQ.empty α maxSize, accepted := 0, dequeued := 0, drops := 0 }
    (by simp [PQ.empty]) (by simp [PQ.empty, storedCount])
  refine ⟨h.1, fun hd => ?_⟩
  have h2 := h.2
  simp only [runOps] at hd ⊢
  omega

/-- Witness for C10: `max_size = 4` gives the critical lane capacity 1;
two critical enqueues drop one packet, so `size()` is 2 while only 1
packet is stored. -/
theorem size_tracks_accepted_not_stored_witness :
    ((runOps 4 [QOp.enq 0 "critical", QOp.enq 1 "critical"]).q.packetCount +
      (runOps 4 [QOp.enq 0 "critical", QOp.enq 1 "critical"]).dequeued =
      (runOps 4 [QOp.enq 0 "critical", QOp.enq 1 "critical"]).accepted) ∧
    (0 < (runOps 4 [QOp.enq 0 "critical", QOp.enq 1 "critical"]).drops) ∧
    (storedCount (runOps 4 [QOp.enq 0 "critical", QOp.enq 1 "critical"]).q <
      (runOps 4 [QOp.enq 0 "critical", QOp.enq 1 "critical"]).q.packetCount) :=
  ⟨(size_tracks_accepted_not_stored 4 [QOp.enq 0 "critical", QOp.enq 1 "critical"]).1,
   by decide,
   (size_tracks_accepted_not_stored 4 [QOp.enq 0 "critical", QOp.enq 1 "critical"]).2
     (by decide)⟩

end NeuralLink

namespace NeuralLink

/-- A concrete mixed enqueue sequence for the drain-ordering theorem. -/
def esW : List (Nat × String) :=
  [(1, "low"), (2, "critical"), (3, "high"), (4, "normal"), (5, "critical")]

/-- Witness for C6 at `max_size = 8` (lane capacities 2/4/8/8). -/
theorem drain_priority_order_witness :
    drainAll (storedCount (buildQueue 8 esW)) (buildQueue 8 esW) =
      takeLast 2 (selLane "critical" esW) ++
      takeLast 4 (selLane "high" esW) ++
      takeLast 8 (selLane "normal" esW) ++
      takeLast 8 (selLane "low" esW) :=
  drain_priority_order 8 esW

end NeuralLink
